import Mathlib

/-!
Shallow embedding of the AQI computation engine of `src/Models/models.py`
(`class AQICalculator`).  Python floats are modelled as exact rationals
(`ℚ`); the `np.nan` missing sentinel is modelled as `Option.none`; Python
ints are `ℤ`.  Each definition mirrors one method of `AQICalculator`.
-/

/-- One entry `(concentration_low, concentration_high, index_low, index_high)`
of a breakpoint table, as in the tuples of `NO2_BREAKPOINTS` etc. -/
structure Breakpoint where
  bp_low : ℤ
  bp_high : ℤ
  aqi_low : ℤ
  aqi_high : ℤ
deriving DecidableEq

/-- Model of `AQICalculator.NO2_BREAKPOINTS` (ppb, 1-hour average). -/
def NO2_BREAKPOINTS : List Breakpoint :=
  [⟨0, 53, 0, 50⟩, ⟨54, 100, 51, 100⟩, ⟨101, 360, 101, 150⟩,
   ⟨361, 649, 151, 200⟩, ⟨650, 1249, 201, 300⟩, ⟨1250, 2049, 301, 500⟩]

/-- Model of `AQICalculator.O3_BREAKPOINTS` (ppb, 8-hour average). -/
def O3_BREAKPOINTS : List Breakpoint :=
  [⟨0, 54, 0, 50⟩, ⟨55, 70, 51, 100⟩, ⟨71, 85, 101, 150⟩,
   ⟨86, 105, 151, 200⟩, ⟨106, 200, 201, 300⟩]

/-- Model of `AQICalculator.HCHO_BREAKPOINTS` (ppb, approximate thresholds). -/
def HCHO_BREAKPOINTS : List Breakpoint :=
  [⟨0, 10, 0, 50⟩, ⟨11, 30, 51, 100⟩, ⟨31, 50, 101, 150⟩,
   ⟨51, 80, 151, 200⟩, ⟨81, 120, 201, 300⟩]

/-- Python's built-in `round` on an exact value: round half to even
(banker's rounding), as used in `int(round(aqi))`. -/
def pyRound (q : ℚ) : ℤ :=
  if q - ⌊q⌋ < 1/2 then ⌊q⌋
  else if 1/2 < q - ⌊q⌋ then ⌊q⌋ + 1
  else if ⌊q⌋ % 2 = 0 then ⌊q⌋ else ⌊q⌋ + 1

/-- The predicate of the loop in `calculate_aqi`:
`bp_low <= concentration <= bp_high`. -/
def inRange (c : ℚ) (bp : Breakpoint) : Bool :=
  decide ((bp.bp_low : ℚ) ≤ c) && decide (c ≤ (bp.bp_high : ℚ))

/-- Model of `AQICalculator.calculate_aqi`: `nan` or negative concentration gives
`nan`; otherwise the first breakpoint entry containing the concentration
yields the EPA linear-interpolation formula rounded with Python `round`;
if no entry contains it, the last entry's `index_high`
(`breakpoints[-1][3]`; the tables used are never empty). -/
def calculate_aqi (concentration : Option ℚ) (breakpoints : List Breakpoint) : Option ℤ :=
  match concentration with
  | none => none
  | some c =>
    if c < 0 then none
    else
      match breakpoints.find? (inRange c) with
      | some bp =>
          some (pyRound (((bp.aqi_high : ℚ) - bp.aqi_low) / ((bp.bp_high : ℚ) - bp.bp_low)
                  * (c - bp.bp_low) + bp.aqi_low))
      | none => breakpoints.getLast?.map (·.aqi_high)

/-- Model of `AQICalculator.no2_column_to_ppb`: divide by `2e15`, propagating `nan`. -/
def no2_column_to_ppb (column_density : Option ℚ) : Option ℚ :=
  match column_density with
  | none => none
  | some cd => some (cd / 2000000000000000)

/-- Model of `AQICalculator.hcho_column_to_ppb`: divide by `1e16`, propagating `nan`. -/
def hcho_column_to_ppb (column_density : Option ℚ) : Option ℚ :=
  match column_density with
  | none => none
  | some cd => some (cd / 10000000000000000)

/-- Model of `AQICalculator.get_no2_aqi`. -/
def get_no2_aqi (no2_column : Option ℚ) : Option ℤ :=
  calculate_aqi (no2_column_to_ppb no2_column) NO2_BREAKPOINTS

/-- Model of `AQICalculator.get_o3_aqi`. -/
def get_o3_aqi (o3_ppb : Option ℚ) : Option ℤ :=
  calculate_aqi o3_ppb O3_BREAKPOINTS

/-- Model of `AQICalculator.get_hcho_aqi`. -/
def get_hcho_aqi (hcho_column : Option ℚ) : Option ℤ :=
  calculate_aqi (hcho_column_to_ppb hcho_column) HCHO_BREAKPOINTS

/-- The `aqis` dict built by `get_combined_aqi`, in its insertion order
`NO2`, `HCHO`, `O3` (CPython dicts preserve insertion order), keeping only
the non-`nan` sub-indices. -/
def combined_entries (no2_col hcho_col o3_ppb : Option ℚ) : List (String × ℤ) :=
  (match get_no2_aqi no2_col with | some a => [("NO2", a)] | none => []) ++
  (match get_hcho_aqi hcho_col with | some a => [("HCHO", a)] | none => []) ++
  (match get_o3_aqi o3_ppb with | some a => [("O3", a)] | none => [])

/-- Python's `max(aqis, key=aqis.get)` over a nonempty association list:
scan in iteration order, a later element replaces the current best only
when strictly greater, so the first maximal element wins. -/
def max_entry (p : String × ℤ) (ps : List (String × ℤ)) : String × ℤ :=
  ps.foldl (fun best q => if best.2 < q.2 then q else best) p

/-- Model of `AQICalculator.get_combined_aqi`: `(nan, None)` when no pollutant has a
valid sub-index, modelled as `none`; otherwise
`(max(aqis.values()), max(aqis, key=aqis.get))`. -/
def get_combined_aqi (no2_col hcho_col o3_ppb : Option ℚ) : Option (ℤ × String) :=
  match combined_entries no2_col hcho_col o3_ppb with
  | [] => none
  | p :: ps => some (ps.foldl (fun m q => max m q.2) p.2, (max_entry p ps).1)

/-- Model of `AQICalculator.aqi_to_category`: `nan` gives
`(nan, "Unknown", "No data available")`; otherwise the fixed thresholds. -/
def aqi_to_category (aqi : Option ℚ) : Option ℤ × String × String :=
  match aqi with
  | none => (none, "Unknown", "No data available")
  | some a =>
    if a ≤ 50 then
      (some 0, "Good",
       "Air quality is satisfactory, and air pollution poses little or no risk.")
    else if a ≤ 100 then
      (some 1, "Moderate",
       "Air quality is acceptable. However, there may be a risk for some people.")
    else if a ≤ 150 then
      (some 2, "Unhealthy for Sensitive Groups",
       "Members of sensitive groups may experience health effects.")
    else if a ≤ 200 then
      (some 3, "Unhealthy",
       "Some members of the general public may experience health effects.")
    else if a ≤ 300 then
      (some 4, "Very Unhealthy",
       "Health alert: The risk of health effects is increased for everyone.")
    else
      (some 5, "Hazardous",
       "Health warning of emergency conditions: everyone is more likely to be affected.")

/-! ### Helper lemmas -/

/-- The breakpoint entries are sorted and pairwise disjoint: every earlier
entry ends strictly below where every later entry begins. -/
def disjointSorted (bps : List Breakpoint) : Prop :=
  bps.Pairwise (fun x y => x.bp_high < y.bp_low)

theorem pyRound_ge_floor (q : ℚ) : ⌊q⌋ ≤ pyRound q := by
  unfold pyRound
  split_ifs <;> omega

theorem pyRound_le_floor_add_one (q : ℚ) : pyRound q ≤ ⌊q⌋ + 1 := by
  unfold pyRound
  split_ifs <;> omega

theorem pyRound_mono {q r : ℚ} (h : q ≤ r) : pyRound q ≤ pyRound r := by
  rcases lt_or_le ⌊q⌋ ⌊r⌋ with hf | hf
  · calc pyRound q ≤ ⌊q⌋ + 1 := pyRound_le_floor_add_one q
    _ ≤ ⌊r⌋ := by omega
    _ ≤ pyRound r := pyRound_ge_floor r
  · have hfe : ⌊r⌋ = ⌊q⌋ := le_antisymm hf (Int.floor_le_floor h)
    unfold pyRound
    rw [hfe]
    split_ifs <;> first | omega | linarith

theorem find?_inRange_eq_of_mem {bps : List Breakpoint} {bp : Breakpoint} {c : ℚ}
    (hwf : disjointSorted bps) (hmem : bp ∈ bps)
    (hl : (bp.bp_low : ℚ) ≤ c) (hh : c ≤ (bp.bp_high : ℚ)) :
    bps.find? (inRange c) = some bp := by
  induction bps with
  | nil => cases hmem
  | cons a l ih =>
    rcases List.mem_cons.1 hmem with rfl | hmem'
    · exact List.find?_cons_of_pos _ (by simp [inRange, hl, hh])
    · have hrel : a.bp_high < bp.bp_low := (List.pairwise_cons.1 hwf).1 bp hmem'
      have hfa : ¬ (c ≤ (a.bp_high : ℚ)) := by
        push_neg
        calc (a.bp_high : ℚ) < (bp.bp_low : ℚ) := by exact_mod_cast hrel
        _ ≤ c := hl
      rw [List.find?_cons_of_neg _ (by simp [inRange, hfa])]
      exact ih (List.pairwise_cons.1 hwf).2 hmem'

/-! ### Claim theorems -/

/-- C1: for a non-missing, non-negative concentration lying in some entry's
inclusive range of a sorted disjoint table, `calculate_aqi` returns the EPA
linear-interpolation formula for that entry, rounded to the nearest integer
(Python `round`, half to even). -/
theorem calculate_aqi_interpolation {bps : List Breakpoint} {bp : Breakpoint} {c : ℚ}
    (hwf : disjointSorted bps) (hc : 0 ≤ c) (hmem : bp ∈ bps)
    (hl : (bp.bp_low : ℚ) ≤ c) (hh : c ≤ (bp.bp_high : ℚ)) :
    calculate_aqi (some c) bps
      = some (pyRound (((bp.aqi_high : ℚ) - bp.aqi_low) / ((bp.bp_high : ℚ) - bp.bp_low)
          * (c - bp.bp_low) + bp.aqi_low)) := by
  simp only [calculate_aqi]
  rw [if_neg (not_lt.2 hc), find?_inRange_eq_of_mem hwf hmem hl hh]

/-- C1 witness: at the boundary concentrations 53 and 54 ppb the NO2
sub-index equals the table's boundary indices 50 and 51. -/
theorem calculate_aqi_interpolation_witness :
    calculate_aqi (some 53) NO2_BREAKPOINTS = some 50 ∧
    calculate_aqi (some 54) NO2_BREAKPOINTS = some 51 := by
  constructor
  · rw [@calculate_aqi_interpolation NO2_BREAKPOINTS ⟨0, 53, 0, 50⟩ 53
      (by unfold disjointSorted; decide) (by norm_num) (by decide) (by norm_num) (by norm_num)]
    norm_num [pyRound]
  · rw [@calculate_aqi_interpolation NO2_BREAKPOINTS ⟨54, 100, 51, 100⟩ 54
      (by unfold disjointSorted; decide) (by norm_num) (by decide) (by norm_num) (by norm_num)]
    norm_num [pyRound]

theorem mem_of_getLast?_eq_some {α : Type} {l : List α} {x : α}
    (h : l.getLast? = some x) : x ∈ l := by
  induction l with
  | nil => simp at h
  | cons a t ih =>
    cases t with
    | nil =>
      simp at h
      simp [h]
    | cons b t' =>
      rw [List.getLast?_cons_cons] at h
      exact List.mem_cons_of_mem _ (ih h)

theorem bp_high_le_of_getLast {bps : List Breakpoint} {lastbp : Breakpoint}
    (hwf : disjointSorted bps)
    (hsane : ∀ bp ∈ bps, bp.bp_low ≤ bp.bp_high)
    (hlast : bps.getLast? = some lastbp) :
    ∀ bp ∈ bps, bp.bp_high ≤ lastbp.bp_high := by
  induction bps with
  | nil => simp at hlast
  | cons a l ih =>
    intro bp hbp
    cases l with
    | nil =>
      simp at hlast hbp
      subst hlast
      subst hbp
      exact le_refl _
    | cons b l' =>
      rw [List.getLast?_cons_cons] at hlast
      rcases List.mem_cons.1 hbp with rfl | hbp'
      · have hmem : lastbp ∈ b :: l' := mem_of_getLast?_eq_some hlast
        have h1 : bp.bp_high < lastbp.bp_low := (List.pairwise_cons.1 hwf).1 lastbp hmem
        have h2 : lastbp.bp_low ≤ lastbp.bp_high :=
          hsane lastbp (List.mem_cons_of_mem _ hmem)
        omega
      · exact ih (List.pairwise_cons.1 hwf).2
          (fun q hq => hsane q (List.mem_cons_of_mem _ hq)) hlast bp hbp'

/-- C4: for a concentration strictly above the last entry's upper bound of a
sorted disjoint, sanely-ordered table, `calculate_aqi` returns exactly the
last entry's `index_high` (saturating ceiling, never more). -/
theorem calculate_aqi_saturates {bps : List Breakpoint} {lastbp : Breakpoint} {c : ℚ}
    (hwf : disjointSorted bps)
    (hsane : ∀ bp ∈ bps, bp.bp_low ≤ bp.bp_high)
    (hlast : bps.getLast? = some lastbp)
    (hnn : 0 ≤ lastbp.bp_high)
    (hc : (lastbp.bp_high : ℚ) < c) :
    calculate_aqi (some c) bps = some lastbp.aqi_high := by
  have hnn' : (0 : ℚ) ≤ (lastbp.bp_high : ℚ) := by exact_mod_cast hnn
  have hc0 : 0 ≤ c := le_trans hnn' hc.le
  simp only [calculate_aqi]
  rw [if_neg (not_lt.2 hc0)]
  have hnone : bps.find? (inRange c) = none := by
    rw [List.find?_eq_none]
    intro bp hbp
    have h1 : bp.bp_high ≤ lastbp.bp_high := bp_high_le_of_getLast hwf hsane hlast bp hbp
    simp only [inRange, Bool.and_eq_true, decide_eq_true_eq, not_and, not_le]
    intro _
    calc (bp.bp_high : ℚ) ≤ (lastbp.bp_high : ℚ) := by exact_mod_cast h1
    _ < c := hc
  rw [hnone, hlast]
  rfl

/-- C4 witness: NO2 at 5000 ppb, far above the table's top bound 2049,
yields the saturated maximal index 500. -/
theorem calculate_aqi_saturates_witness :
    calculate_aqi (some 5000) NO2_BREAKPOINTS = some 500 :=
  @calculate_aqi_saturates NO2_BREAKPOINTS ⟨1250, 2049, 301, 500⟩ 5000
    (by unfold disjointSorted; decide) (by decide) (by rfl) (by decide) (by norm_num)

/-- C9: a non-missing, non-negative concentration strictly inside the gap
between two adjacent entries of a sorted disjoint table matches no entry, so
`calculate_aqi` falls through to the last entry's `index_high` (the table's
maximum score), not an interpolated or missing value. -/
theorem calculate_aqi_gap {l1 l2 : List Breakpoint} {a b lastbp : Breakpoint} {c : ℚ}
    (hwf : disjointSorted (l1 ++ a :: b :: l2))
    (hsane : ∀ bp ∈ l1 ++ a :: b :: l2, bp.bp_low ≤ bp.bp_high)
    (hlast : (l1 ++ a :: b :: l2).getLast? = some lastbp)
    (h0 : 0 ≤ c) (h1 : (a.bp_high : ℚ) < c) (h2 : c < (b.bp_low : ℚ)) :
    calculate_aqi (some c) (l1 ++ a :: b :: l2) = some lastbp.aqi_high := by
  simp only [calculate_aqi]
  rw [if_neg (not_lt.2 h0)]
  have hnone : (l1 ++ a :: b :: l2).find? (inRange c) = none := by
    rw [List.find?_eq_none]
    intro bp hbp
    simp only [inRange, Bool.and_eq_true, decide_eq_true_eq, not_and, not_le]
    intro hlow
    rcases List.mem_append.1 hbp with hL | hR
    · have hx : bp.bp_high < a.bp_low :=
        (List.pairwise_append.1 hwf).2.2 bp hL a (List.mem_cons_self _ _)
      have hy : a.bp_low ≤ a.bp_high :=
        hsane a (List.mem_append_right _ (List.mem_cons_self _ _))
      have hz : (bp.bp_high : ℚ) < (a.bp_high : ℚ) := by exact_mod_cast lt_of_lt_of_le hx hy
      linarith
    · rcases List.mem_cons.1 hR with rfl | hR2
      · exact h1
      rcases List.mem_cons.1 hR2 with rfl | hR3
      · exact absurd hlow (not_le.2 h2)
      · have hpr : List.Pairwise (fun x y => x.bp_high < y.bp_low) (a :: b :: l2) :=
          (List.pairwise_append.1 hwf).2.1
        have hx : b.bp_high < bp.bp_low :=
          (List.pairwise_cons.1 (List.pairwise_cons.1 hpr).2).1 bp hR3
        have hyb : b.bp_low ≤ b.bp_high :=
          hsane b (List.mem_append_right _ (List.mem_cons_of_mem _ (List.mem_cons_self _ _)))
        have hz : (b.bp_low : ℚ) ≤ (bp.bp_low : ℚ) := by exact_mod_cast le_trans hyb hx.le
        linarith
  rw [hnone, hlast]
  rfl

/-- C9 witness: NO2 at 53.5 ppb, in the gap between the entries ending at 53
and starting at 54, yields the table-maximum sub-index 500. -/
theorem calculate_aqi_gap_witness :
    calculate_aqi (some (107 / 2)) NO2_BREAKPOINTS = some 500 :=
  @calculate_aqi_gap [] [⟨101, 360, 101, 150⟩, ⟨361, 649, 151, 200⟩,
      ⟨650, 1249, 201, 300⟩, ⟨1250, 2049, 301, 500⟩]
    ⟨0, 53, 0, 50⟩ ⟨54, 100, 51, 100⟩ ⟨1250, 2049, 301, 500⟩ (107 / 2)
    (by unfold disjointSorted; decide) (by decide) (by rfl)
    (by norm_num) (by norm_num) (by norm_num)

/-- C7: within a single entry of a sorted disjoint table whose index range
is non-decreasing, the interpolated sub-index is monotone in the
concentration: `c1 ≤ c2` gives `calculate_aqi c1 ≤ calculate_aqi c2`. -/
theorem calculate_aqi_mono {bps : List Breakpoint} {bp : Breakpoint} {c1 c2 : ℚ}
    (hwf : disjointSorted bps) (hmem : bp ∈ bps)
    (hslope : bp.aqi_low ≤ bp.aqi_high) (hwidth : bp.bp_low < bp.bp_high)
    (h0 : 0 ≤ c1) (hl : (bp.bp_low : ℚ) ≤ c1) (h12 : c1 ≤ c2)
    (hh : c2 ≤ (bp.bp_high : ℚ)) :
    ∃ a1 a2, calculate_aqi (some c1) bps = some a1 ∧
      calculate_aqi (some c2) bps = some a2 ∧ a1 ≤ a2 := by
  refine ⟨pyRound (((bp.aqi_high : ℚ) - bp.aqi_low) / ((bp.bp_high : ℚ) - bp.bp_low)
      * (c1 - bp.bp_low) + bp.aqi_low),
    pyRound (((bp.aqi_high : ℚ) - bp.aqi_low) / ((bp.bp_high : ℚ) - bp.bp_low)
      * (c2 - bp.bp_low) + bp.aqi_low), ?_, ?_, ?_⟩
  · simp only [calculate_aqi]
    rw [if_neg (not_lt.2 h0), find?_inRange_eq_of_mem hwf hmem hl (le_trans h12 hh)]
  · simp only [calculate_aqi]
    rw [if_neg (not_lt.2 (le_trans h0 h12)), find?_inRange_eq_of_mem hwf hmem (le_trans hl h12) hh]
  · apply pyRound_mono
    have hs : (0 : ℚ) ≤ ((bp.aqi_high : ℚ) - bp.aqi_low) / ((bp.bp_high : ℚ) - bp.bp_low) := by
      apply div_nonneg
      · have : (bp.aqi_low : ℚ) ≤ (bp.aqi_high : ℚ) := by exact_mod_cast hslope
        linarith
      · have : (bp.bp_low : ℚ) < (bp.bp_high : ℚ) := by exact_mod_cast hwidth
        linarith
    have hm := mul_le_mul_of_nonneg_left
      (by linarith : c1 - (bp.bp_low : ℚ) ≤ c2 - (bp.bp_low : ℚ)) hs
    linarith

/-- C7 witness: inside the NO2 entry `[54, 100] -> [51, 100]`, concentrations
55 and 60 give defined sub-indices in non-decreasing order. -/
theorem calculate_aqi_mono_witness :
    ∃ a1 a2, calculate_aqi (some 55) NO2_BREAKPOINTS = some a1 ∧
      calculate_aqi (some 60) NO2_BREAKPOINTS = some a2 ∧ a1 ≤ a2 :=
  @calculate_aqi_mono NO2_BREAKPOINTS ⟨54, 100, 51, 100⟩ 55 60
    (by unfold disjointSorted; decide) (by decide) (by decide) (by decide)
    (by norm_num) (by norm_num) (by norm_num) (by norm_num)

/-- C3: `aqi_to_category` maps a missing AQI to
`(missing, "Unknown", "No data available")` and otherwise picks exactly one
of the six fixed categories by the thresholds 50, 100, 150, 200, 300, each
with its fixed recommendation string. -/
theorem aqi_to_category_spec :
    aqi_to_category none = (none, "Unknown", "No data available") ∧
    ∀ a : ℚ,
      (a ≤ 50 → aqi_to_category (some a) = (some 0, "Good",
        "Air quality is satisfactory, and air pollution poses little or no risk.")) ∧
      (50 < a → a ≤ 100 → aqi_to_category (some a) = (some 1, "Moderate",
        "Air quality is acceptable. However, there may be a risk for some people.")) ∧
      (100 < a → a ≤ 150 → aqi_to_category (some a) = (some 2, "Unhealthy for Sensitive Groups",
        "Members of sensitive groups may experience health effects.")) ∧
      (150 < a → a ≤ 200 → aqi_to_category (some a) = (some 3, "Unhealthy",
        "Some members of the general public may experience health effects.")) ∧
      (200 < a → a ≤ 300 → aqi_to_category (some a) = (some 4, "Very Unhealthy",
        "Health alert: The risk of health effects is increased for everyone.")) ∧
      (300 < a → aqi_to_category (some a) = (some 5, "Hazardous",
        "Health warning of emergency conditions: everyone is more likely to be affected.")) := by
  refine ⟨rfl, fun a => ⟨?_, ?_, ?_, ?_, ?_, ?_⟩⟩
  · intro h
    simp only [aqi_to_category]
    rw [if_pos h]
  · intro h1 h2
    simp only [aqi_to_category]
    rw [if_neg (by linarith), if_pos h2]
  · intro h1 h2
    simp only [aqi_to_category]
    rw [if_neg (by linarith), if_neg (by linarith), if_pos h2]
  · intro h1 h2
    simp only [aqi_to_category]
    rw [if_neg (by linarith), if_neg (by linarith), if_neg (by linarith), if_pos h2]
  · intro h1 h2
    simp only [aqi_to_category]
    rw [if_neg (by linarith), if_neg (by linarith), if_neg (by linarith),
      if_neg (by linarith), if_pos h2]
  · intro h1
    simp only [aqi_to_category]
    rw [if_neg (by linarith), if_neg (by linarith), if_neg (by linarith),
      if_neg (by linarith), if_neg (by linarith)]

/-- C3 witness: the boundary values 50, 51 and 301 land in categories
0 "Good", 1 "Moderate" and 5 "Hazardous". -/
theorem aqi_to_category_spec_witness :
    aqi_to_category (some 50) = (some 0, "Good",
      "Air quality is satisfactory, and air pollution poses little or no risk.") ∧
    aqi_to_category (some 51) = (some 1, "Moderate",
      "Air quality is acceptable. However, there may be a risk for some people.") ∧
    aqi_to_category (some 301) = (some 5, "Hazardous",
      "Health warning of emergency conditions: everyone is more likely to be affected.") :=
  ⟨(aqi_to_category_spec.2 50).1 (by norm_num),
   (aqi_to_category_spec.2 51).2.1 (by norm_num) (by norm_num),
   (aqi_to_category_spec.2 301).2.2.2.2.2 (by norm_num)⟩

theorem foldl_best_snd (ps : List (String × ℤ)) : ∀ p : String × ℤ,
    (ps.foldl (fun best q => if best.2 < q.2 then q else best) p).2
      = ps.foldl (fun m q => max m q.2) p.2 := by
  induction ps with
  | nil => intro p; rfl
  | cons q rest ih =>
    intro p
    simp only [List.foldl_cons]
    rw [ih]
    congr 1
    split_ifs with h
    · exact (max_eq_right h.le).symm
    · exact (max_eq_left (not_lt.1 h)).symm

theorem max_entry_snd (ps : List (String × ℤ)) (p : String × ℤ) :
    (max_entry p ps).2 = ps.foldl (fun m q => max m q.2) p.2 :=
  foldl_best_snd ps p

/-- Python's `max` with a key returns the first maximal element: the scanned
list decomposes around the result, with everything before it strictly
smaller and everything after it no larger. -/
theorem max_entry_first (ps : List (String × ℤ)) : ∀ p : String × ℤ,
    ∃ l1 l2, p :: ps = l1 ++ max_entry p ps :: l2 ∧
      (∀ q ∈ l1, q.2 < (max_entry p ps).2) ∧
      (∀ q ∈ l2, q.2 ≤ (max_entry p ps).2) := by
  induction ps with
  | nil =>
    intro p
    exact ⟨[], [], rfl, by simp, by simp⟩
  | cons q rest ih =>
    intro p
    have hstep : max_entry p (q :: rest) = max_entry (if p.2 < q.2 then q else p) rest := rfl
    by_cases hpq : p.2 < q.2
    · rw [hstep, if_pos hpq]
      obtain ⟨l1, l2, heq, hlt, hle⟩ := ih q
      have hqle : q.2 ≤ (max_entry q rest).2 := by
        have hq : q ∈ l1 ++ max_entry q rest :: l2 := by
          rw [← heq]
          exact List.mem_cons_self _ _
        rcases List.mem_append.1 hq with h1 | h2
        · exact (hlt _ h1).le
        · rcases List.mem_cons.1 h2 with heq2 | h3
          · exact le_of_eq (congrArg Prod.snd heq2)
          · exact hle _ h3
      refine ⟨p :: l1, l2, ?_, ?_, hle⟩
      · rw [List.cons_append, ← heq]
      · intro x hx
        rcases List.mem_cons.1 hx with rfl | hx'
        · omega
        · exact hlt _ hx'
    · rw [hstep, if_neg hpq]
      obtain ⟨l1, l2, heq, hlt, hle⟩ := ih p
      cases l1 with
      | nil =>
        simp only [List.nil_append] at heq
        injection heq with h1 h2
        refine ⟨[], q :: l2, ?_, by simp, ?_⟩
        · simp only [List.nil_append]
          rw [← h1, h2]
        · intro x hx
          rcases List.mem_cons.1 hx with rfl | hx'
          · rw [← h1]
            exact not_lt.1 hpq
          · exact hle _ hx'
      | cons y l1' =>
        simp only [List.cons_append] at heq
        injection heq with h1 h2
        have hpmem : p.2 < (max_entry p rest).2 := by
          have hy := hlt y (List.mem_cons_self _ _)
          rw [← h1] at hy
          exact hy
        refine ⟨p :: q :: l1', l2, ?_, ?_, hle⟩
        · simp only [List.cons_append]
          conv_lhs => rw [h2]
        · intro x hx
          rcases List.mem_cons.1 hx with rfl | hx'
          · exact hpmem
          rcases List.mem_cons.1 hx' with rfl | hx2
          · omega
          · exact hlt _ (List.mem_cons_of_mem _ hx2)

theorem combined_entries_eq_nil_iff (no2 hcho o3 : Option ℚ) :
    combined_entries no2 hcho o3 = [] ↔
      get_no2_aqi no2 = none ∧ get_hcho_aqi hcho = none ∧ get_o3_aqi o3 = none := by
  unfold combined_entries
  rcases h1 : get_no2_aqi no2 with _ | a <;> rcases h2 : get_hcho_aqi hcho with _ | b <;>
    rcases h3 : get_o3_aqi o3 with _ | c <;> simp

theorem calculate_aqi_nonneg {bps : List Breakpoint} {co : Option ℚ} {a : ℤ}
    (hpos : ∀ bp ∈ bps, 0 ≤ bp.aqi_low ∧ bp.aqi_low ≤ bp.aqi_high ∧ bp.bp_low < bp.bp_high)
    (hres : calculate_aqi co bps = some a) : 0 ≤ a := by
  rcases co with _ | c
  · simp [calculate_aqi] at hres
  · simp only [calculate_aqi] at hres
    split_ifs at hres with hneg
    rcases hfind : bps.find? (inRange c) with _ | bp <;>
      rw [hfind] at hres <;> dsimp only at hres
    · rcases hlast : bps.getLast? with _ | lbp <;> rw [hlast] at hres
      · simp at hres
      · simp only [Option.map_some', Option.some.injEq] at hres
        obtain ⟨h0, h1, -⟩ := hpos lbp (mem_of_getLast?_eq_some hlast)
        omega
    · have hbp := List.mem_of_find?_eq_some hfind
      have hpr := List.find?_some hfind
      simp only [inRange, Bool.and_eq_true, decide_eq_true_eq] at hpr
      obtain ⟨hl, hh⟩ := hpr
      obtain ⟨hal, hslope, hwidth⟩ := hpos bp hbp
      simp only [Option.some.injEq] at hres
      subst hres
      have hs : (0 : ℚ) ≤ ((bp.aqi_high : ℚ) - bp.aqi_low) / ((bp.bp_high : ℚ) - bp.bp_low) := by
        apply div_nonneg
        · have : (bp.aqi_low : ℚ) ≤ (bp.aqi_high : ℚ) := by exact_mod_cast hslope
          linarith
        · have : (bp.bp_low : ℚ) < (bp.bp_high : ℚ) := by exact_mod_cast hwidth
          linarith
      have hm : (0 : ℚ) ≤ ((bp.aqi_high : ℚ) - bp.aqi_low) / ((bp.bp_high : ℚ) - bp.bp_low)
          * (c - bp.bp_low) := mul_nonneg hs (by linarith)
      have hq : (0 : ℚ)
          ≤ ((bp.aqi_high : ℚ) - bp.aqi_low) / ((bp.bp_high : ℚ) - bp.bp_low)
            * (c - bp.bp_low) + bp.aqi_low := by
        have : (0 : ℚ) ≤ (bp.aqi_low : ℚ) := by exact_mod_cast hal
        linarith
      calc (0 : ℤ) ≤ ⌊((bp.aqi_high : ℚ) - bp.aqi_low) / ((bp.bp_high : ℚ) - bp.bp_low)
            * (c - bp.bp_low) + bp.aqi_low⌋ := Int.floor_nonneg.2 hq
      _ ≤ _ := pyRound_ge_floor _

theorem mem_match_entry {s : String} {r : Option ℤ} {p : String × ℤ}
    (hp : p ∈ (match r with | some a => [(s, a)] | none => ([] : List (String × ℤ)))) :
    r = some p.2 ∧ p.1 = s := by
  rcases r with _ | a
  · simp at hp
  · simp only [List.mem_singleton] at hp
    rw [hp]
    exact ⟨rfl, rfl⟩

theorem NO2_pos : ∀ bp ∈ NO2_BREAKPOINTS,
    0 ≤ bp.aqi_low ∧ bp.aqi_low ≤ bp.aqi_high ∧ bp.bp_low < bp.bp_high := by decide

theorem O3_pos : ∀ bp ∈ O3_BREAKPOINTS,
    0 ≤ bp.aqi_low ∧ bp.aqi_low ≤ bp.aqi_high ∧ bp.bp_low < bp.bp_high := by decide

theorem HCHO_pos : ∀ bp ∈ HCHO_BREAKPOINTS,
    0 ≤ bp.aqi_low ∧ bp.aqi_low ≤ bp.aqi_high ∧ bp.bp_low < bp.bp_high := by decide

theorem combined_entries_nonneg (no2 hcho o3 : Option ℚ) :
    ∀ p ∈ combined_entries no2 hcho o3, 0 ≤ p.2 := by
  intro p hp
  unfold combined_entries at hp
  rcases List.mem_append.1 hp with hp12 | hp3
  · rcases List.mem_append.1 hp12 with hp1 | hp2
    · exact calculate_aqi_nonneg NO2_pos (mem_match_entry hp1).1
    · exact calculate_aqi_nonneg HCHO_pos (mem_match_entry hp2).1
  · exact calculate_aqi_nonneg O3_pos (mem_match_entry hp3).1

/-- C2: if all three pollutant sub-indices are missing, `get_combined_aqi`
returns the missing result; otherwise it returns some pair of a
non-negative overall AQI equal to the maximum valid sub-index, together
with the name of a pollutant whose sub-index attains that maximum. -/
theorem get_combined_aqi_spec (no2 hcho o3 : Option ℚ) :
    (get_no2_aqi no2 = none ∧ get_hcho_aqi hcho = none ∧ get_o3_aqi o3 = none →
      get_combined_aqi no2 hcho o3 = none) ∧
    (¬ (get_no2_aqi no2 = none ∧ get_hcho_aqi hcho = none ∧ get_o3_aqi o3 = none) →
      ∃ a d, get_combined_aqi no2 hcho o3 = some (a, d) ∧ 0 ≤ a ∧
        (d, a) ∈ combined_entries no2 hcho o3 ∧
        ∀ p ∈ combined_entries no2 hcho o3, p.2 ≤ a) := by
  constructor
  · intro hall
    unfold get_combined_aqi
    rw [(combined_entries_eq_nil_iff no2 hcho o3).2 hall]
  · intro hsome
    have hne : combined_entries no2 hcho o3 ≠ [] := fun hnil =>
      hsome ((combined_entries_eq_nil_iff no2 hcho o3).1 hnil)
    rcases hE : combined_entries no2 hcho o3 with _ | ⟨p, ps⟩
    · exact absurd hE hne
    obtain ⟨l1, l2, heq, hlt, hle⟩ := max_entry_first ps p
    have hsnd := max_entry_snd ps p
    have hpair : ((max_entry p ps).1, ps.foldl (fun m q => max m q.2) p.2) = max_entry p ps := by
      rw [← hsnd]
    have hmem : max_entry p ps ∈ p :: ps := by
      rw [heq]
      exact List.mem_append_right _ (List.mem_cons_self _ _)
    refine ⟨ps.foldl (fun m q => max m q.2) p.2, (max_entry p ps).1, ?_, ?_, ?_, ?_⟩
    · unfold get_combined_aqi
      rw [hE]
    · have h0 := combined_entries_nonneg no2 hcho o3 (max_entry p ps) (by rw [hE]; exact hmem)
      rw [hsnd] at h0
      exact h0
    · rw [hpair]
      exact hmem
    · intro q hq
      rw [heq] at hq
      rw [← hsnd]
      rcases List.mem_append.1 hq with h1 | h2
      · exact (hlt _ h1).le
      rcases List.mem_cons.1 h2 with heq2 | h3
      · exact le_of_eq (congrArg Prod.snd heq2)
      · exact hle _ h3

/-- C2 witness: with all inputs missing the result is missing; with only O3
present at 70 ppb the result is a non-negative maximum over the single
valid entry. -/
theorem get_combined_aqi_spec_witness :
    get_combined_aqi none none none = none ∧
    ∃ a d, get_combined_aqi none none (some 70) = some (a, d) ∧ 0 ≤ a ∧
      (d, a) ∈ combined_entries none none (some 70) ∧
      ∀ p ∈ combined_entries none none (some 70), p.2 ≤ a := by
  constructor
  · exact (get_combined_aqi_spec none none none).1 ⟨rfl, rfl, rfl⟩
  · apply (get_combined_aqi_spec none none (some 70)).2
    intro hall
    obtain ⟨-, -, hc⟩ := hall
    have h3 : get_o3_aqi (some 70) = some 100 := by
      norm_num [get_o3_aqi, calculate_aqi, O3_BREAKPOINTS, List.find?, inRange, pyRound]
    rw [h3] at hc
    exact Option.noConfusion hc

/-- C10: whenever `get_combined_aqi` reports a dominant pollutant, that
pollutant is the first entry attaining the maximum sub-index in the dict's
fixed insertion order NO2, HCHO, O3: all earlier entries are strictly
smaller and all later entries are no larger. -/
theorem get_combined_aqi_tiebreak {no2 hcho o3 : Option ℚ} {a : ℤ} {d : String}
    (hres : get_combined_aqi no2 hcho o3 = some (a, d)) :
    ∃ l1 l2, combined_entries no2 hcho o3 = l1 ++ (d, a) :: l2 ∧
      (∀ p ∈ l1, p.2 < a) ∧ (∀ p ∈ l2, p.2 ≤ a) := by
  unfold get_combined_aqi at hres
  rcases hE : combined_entries no2 hcho o3 with _ | ⟨p, ps⟩ <;> rw [hE] at hres
  · exact Option.noConfusion hres
  simp only [Option.some.injEq, Prod.mk.injEq] at hres
  obtain ⟨ha, hd⟩ := hres
  obtain ⟨l1, l2, heq, hlt, hle⟩ := max_entry_first ps p
  have hsnd := max_entry_snd ps p
  have hpair : (d, a) = max_entry p ps := by
    rw [← hd, ← ha, ← hsnd]
  refine ⟨l1, l2, ?_, ?_, ?_⟩
  · rw [heq, ← hpair]
  · intro q hq
    have h1 := hlt q hq
    rw [hsnd, ha] at h1
    exact h1
  · intro q hq
    have h1 := hle q hq
    rw [hsnd, ha] at h1
    exact h1

/-- C10 witness: NO2, HCHO and O3 all tie at sub-index 50; the reported
dominant pollutant is NO2, the first in insertion order, with the two later
tied entries no larger. -/
theorem get_combined_aqi_tiebreak_witness :
    ∃ l1 l2, combined_entries (some 106000000000000000) (some 100000000000000000) (some 54)
        = l1 ++ ("NO2", (50 : ℤ)) :: l2 ∧
      (∀ p ∈ l1, p.2 < (50 : ℤ)) ∧ (∀ p ∈ l2, p.2 ≤ (50 : ℤ)) :=
  get_combined_aqi_tiebreak (by
    norm_num [get_combined_aqi, combined_entries, get_no2_aqi, get_hcho_aqi, get_o3_aqi,
      no2_column_to_ppb, hcho_column_to_ppb, calculate_aqi, NO2_BREAKPOINTS, O3_BREAKPOINTS,
      HCHO_BREAKPOINTS, List.find?, inRange, pyRound, max_entry])

/-- C6: a missing or negative concentration yields a missing sub-index, and
a negative concentration in any of the three slots of `get_combined_aqi`
has exactly the same effect as a missing one. -/
theorem negative_equiv_missing (c : ℚ) (hc : c < 0) :
    (∀ bps, calculate_aqi none bps = none) ∧
    (∀ bps, calculate_aqi (some c) bps = none) ∧
    (∀ hcho o3, get_combined_aqi (some c) hcho o3 = get_combined_aqi none hcho o3) ∧
    (∀ no2 o3, get_combined_aqi no2 (some c) o3 = get_combined_aqi no2 none o3) ∧
    (∀ no2 hcho, get_combined_aqi no2 hcho (some c) = get_combined_aqi no2 hcho none) := by
  have hneg : ∀ (x : ℚ), x < 0 → ∀ bps, calculate_aqi (some x) bps = none := by
    intro x hx bps
    simp only [calculate_aqi]
    rw [if_pos hx]
  have hno2 : get_no2_aqi (some c) = none := by
    unfold get_no2_aqi no2_column_to_ppb
    exact hneg _ (div_neg_of_neg_of_pos hc (by norm_num)) _
  have hhcho : get_hcho_aqi (some c) = none := by
    unfold get_hcho_aqi hcho_column_to_ppb
    exact hneg _ (div_neg_of_neg_of_pos hc (by norm_num)) _
  have ho3 : get_o3_aqi (some c) = none := by
    unfold get_o3_aqi
    exact hneg _ hc _
  refine ⟨fun bps => rfl, hneg c hc, ?_, ?_, ?_⟩
  · intro hcho o3
    unfold get_combined_aqi
    have he : combined_entries (some c) hcho o3 = combined_entries none hcho o3 := by
      unfold combined_entries
      rw [hno2, show get_no2_aqi none = none from rfl]
    rw [he]
  · intro no2 o3
    unfold get_combined_aqi
    have he : combined_entries no2 (some c) o3 = combined_entries no2 none o3 := by
      unfold combined_entries
      rw [hhcho, show get_hcho_aqi none = none from rfl]
    rw [he]
  · intro no2 hcho
    unfold get_combined_aqi
    have he : combined_entries no2 hcho (some c) = combined_entries no2 hcho none := by
      unfold combined_entries
      rw [ho3, show get_o3_aqi none = none from rfl]
    rw [he]

/-- C6 witness: at concentration -1, the sub-index is missing and the
aggregate with a negative NO2 input equals the aggregate with it absent. -/
theorem negative_equiv_missing_witness :
    calculate_aqi (some (-1)) NO2_BREAKPOINTS = none ∧
    get_combined_aqi (some (-1)) none (some 70) = get_combined_aqi none none (some 70) :=
  ⟨(negative_equiv_missing (-1) (by norm_num)).2.1 NO2_BREAKPOINTS,
   (negative_equiv_missing (-1) (by norm_num)).2.2.1 none (some 70)⟩

/-- C8: the spec's concrete scenario.  NO2 column 1.06e17 converts to
53 ppb and sub-index 50; O3 at 70 ppb gives 100; HCHO column 3e17 converts
to 30 ppb and gives 100; the combined AQI is 100 with dominant "HCHO"
(the first of the tied pollutants in insertion order), category 1
"Moderate". -/
theorem concrete_scenario_spec :
    no2_column_to_ppb (some 106000000000000000) = some 53 ∧
    get_no2_aqi (some 106000000000000000) = some 50 ∧
    get_o3_aqi (some 70) = some 100 ∧
    hcho_column_to_ppb (some 300000000000000000) = some 30 ∧
    get_hcho_aqi (some 300000000000000000) = some 100 ∧
    get_combined_aqi (some 106000000000000000) (some 300000000000000000) (some 70)
      = some (100, "HCHO") ∧
    aqi_to_category (some 100) = (some 1, "Moderate",
      "Air quality is acceptable. However, there may be a risk for some people.") := by
  refine ⟨?_, ?_, ?_, ?_, ?_, ?_, ?_⟩
  · norm_num [no2_column_to_ppb]
  · norm_num [get_no2_aqi, no2_column_to_ppb, calculate_aqi, NO2_BREAKPOINTS,
      List.find?, inRange, pyRound]
  · norm_num [get_o3_aqi, calculate_aqi, O3_BREAKPOINTS, List.find?, inRange, pyRound]
  · norm_num [hcho_column_to_ppb]
  · norm_num [get_hcho_aqi, hcho_column_to_ppb, calculate_aqi, HCHO_BREAKPOINTS,
      List.find?, inRange, pyRound]
  · norm_num [get_combined_aqi, combined_entries, get_no2_aqi, get_hcho_aqi, get_o3_aqi,
      no2_column_to_ppb, hcho_column_to_ppb, calculate_aqi, NO2_BREAKPOINTS, O3_BREAKPOINTS,
      HCHO_BREAKPOINTS, List.find?, inRange, pyRound, max_entry]
  · simp only [aqi_to_category]
    rw [if_neg (by norm_num), if_pos (by norm_num)]

/-- The coverage property asserted by the spec (stated from the spec's
words, for comparison with the actual tables): every real concentration
from 0 up to the table's top bound lies inside some entry's inclusive
range. -/
def covers_reals (bps : List Breakpoint) (top : ℤ) : Prop :=
  ∀ c : ℚ, 0 ≤ c → c < (top : ℚ) →
    ∃ bp ∈ bps, (bp.bp_low : ℚ) ≤ c ∧ c ≤ (bp.bp_high : ℚ)

/-- C5 counterexample: the NO2 table does not cover the real interval
`[0, 2049)`: the concentration 53.5 lies in no entry's range. -/
theorem NO2_not_covers_reals : ¬ covers_reals NO2_BREAKPOINTS 2049 := by
  intro hcov
  obtain ⟨bp, hbp, h1, h2⟩ := hcov (107 / 2) (by norm_num) (by norm_num)
  fin_cases hbp <;> norm_num at h1 h2

theorem chain_int_cover : ∀ (bps : List Breakpoint) (fb lb : Breakpoint) (n : ℤ),
    List.Chain' (fun x y => x.bp_high + 1 = y.bp_low) bps →
    bps.head? = some fb → bps.getLast? = some lb →
    fb.bp_low ≤ n → n ≤ lb.bp_high →
    ∃ bp ∈ bps, bp.bp_low ≤ n ∧ n ≤ bp.bp_high := by
  intro bps
  induction bps with
  | nil =>
    intro fb lb n _ hh
    simp at hh
  | cons a t ih =>
    intro fb lb n hch hh hl hlow hhigh
    have hfb : fb = a := by
      simp only [List.head?_cons, Option.some.injEq] at hh
      exact hh.symm
    rw [hfb] at hlow
    cases t with
    | nil =>
      have hlb : lb = a := by
        simp only [List.getLast?_singleton, Option.some.injEq] at hl
        exact hl.symm
      rw [hlb] at hhigh
      exact ⟨a, List.mem_cons_self _ _, hlow, hhigh⟩
    | cons b t' =>
      rw [List.getLast?_cons_cons] at hl
      by_cases hn : n ≤ a.bp_high
      · exact ⟨a, List.mem_cons_self _ _, hlow, hn⟩
      · obtain ⟨hab, hcht⟩ := List.chain'_cons.1 hch
        have hbl : b.bp_low ≤ n := by omega
        obtain ⟨bp, hbp, h1, h2⟩ := ih b lb n hcht rfl hl hbl hhigh
        exact ⟨bp, List.mem_cons_of_mem _ hbp, h1, h2⟩

/-- C5 (amended): each table is sorted ascending and non-overlapping, with
unit integer gaps between adjacent entries (`concentration_high + 1 =
next concentration_low`, and likewise for the indices), per-entry bounds
ordered, so every INTEGER concentration from 0 to the table's top bound is
covered — though real concentrations strictly inside the unit gaps are
not. -/
theorem tables_invariant_int :
    (disjointSorted NO2_BREAKPOINTS ∧
     List.Chain' (fun x y => x.bp_high + 1 = y.bp_low ∧ x.aqi_high + 1 = y.aqi_low)
       NO2_BREAKPOINTS ∧
     (∀ bp ∈ NO2_BREAKPOINTS, bp.bp_low ≤ bp.bp_high ∧ bp.aqi_low ≤ bp.aqi_high) ∧
     ∀ n : ℤ, 0 ≤ n → n ≤ 2049 → ∃ bp ∈ NO2_BREAKPOINTS, bp.bp_low ≤ n ∧ n ≤ bp.bp_high) ∧
    (disjointSorted O3_BREAKPOINTS ∧
     List.Chain' (fun x y => x.bp_high + 1 = y.bp_low ∧ x.aqi_high + 1 = y.aqi_low)
       O3_BREAKPOINTS ∧
     (∀ bp ∈ O3_BREAKPOINTS, bp.bp_low ≤ bp.bp_high ∧ bp.aqi_low ≤ bp.aqi_high) ∧
     ∀ n : ℤ, 0 ≤ n → n ≤ 200 → ∃ bp ∈ O3_BREAKPOINTS, bp.bp_low ≤ n ∧ n ≤ bp.bp_high) ∧
    (disjointSorted HCHO_BREAKPOINTS ∧
     List.Chain' (fun x y => x.bp_high + 1 = y.bp_low ∧ x.aqi_high + 1 = y.aqi_low)
       HCHO_BREAKPOINTS ∧
     (∀ bp ∈ HCHO_BREAKPOINTS, bp.bp_low ≤ bp.bp_high ∧ bp.aqi_low ≤ bp.aqi_high) ∧
     ∀ n : ℤ, 0 ≤ n → n ≤ 120 → ∃ bp ∈ HCHO_BREAKPOINTS, bp.bp_low ≤ n ∧ n ≤ bp.bp_high) := by
  refine ⟨⟨by unfold disjointSorted; decide,
      by norm_num [NO2_BREAKPOINTS, List.chain'_cons], by decide, ?_⟩,
    ⟨by unfold disjointSorted; decide,
      by norm_num [O3_BREAKPOINTS, List.chain'_cons], by decide, ?_⟩,
    ⟨by unfold disjointSorted; decide,
      by norm_num [HCHO_BREAKPOINTS, List.chain'_cons], by decide, ?_⟩⟩
  · intro n h0 h1
    exact chain_int_cover NO2_BREAKPOINTS ⟨0, 53, 0, 50⟩ ⟨1250, 2049, 301, 500⟩ n
      (by norm_num [NO2_BREAKPOINTS, List.chain'_cons]) rfl rfl h0 h1
  · intro n h0 h1
    exact chain_int_cover O3_BREAKPOINTS ⟨0, 54, 0, 50⟩ ⟨106, 200, 201, 300⟩ n
      (by norm_num [O3_BREAKPOINTS, List.chain'_cons]) rfl rfl h0 h1
  · intro n h0 h1
    exact chain_int_cover HCHO_BREAKPOINTS ⟨0, 10, 0, 50⟩ ⟨81, 120, 201, 300⟩ n
      (by norm_num [HCHO_BREAKPOINTS, List.chain'_cons]) rfl rfl h0 h1

/-- C5 witness: the integer concentration 1000 is covered by some entry in
each of the three tables. -/
theorem tables_invariant_int_witness :
    (∃ bp ∈ NO2_BREAKPOINTS, bp.bp_low ≤ (1000 : ℤ) ∧ (1000 : ℤ) ≤ bp.bp_high) ∧
    (∃ bp ∈ O3_BREAKPOINTS, bp.bp_low ≤ (150 : ℤ) ∧ (150 : ℤ) ≤ bp.bp_high) ∧
    (∃ bp ∈ HCHO_BREAKPOINTS, bp.bp_low ≤ (100 : ℤ) ∧ (100 : ℤ) ≤ bp.bp_high) :=
  ⟨tables_invariant_int.1.2.2.2 1000 (by norm_num) (by norm_num),
   tables_invariant_int.2.1.2.2.2 150 (by norm_num) (by norm_num),
   tables_invariant_int.2.2.2.2.2 100 (by norm_num) (by norm_num)⟩
